import Mathlib

/-!
Shallow embedding of the `toot` HTTP/1.x message codec
(`src/protocol/{mod,request,response}.rs`).

Byte streams are modelled as `List Nat` (each element a byte value),
Rust `String`/`&str` as Lean `String` (in this toolchain a wrapper
around `List Char`), fallible operations as `Except`/`Option`.
-/

deriving instance DecidableEq for Except

namespace Toot

/-- The only `std::io::ErrorKind` reachable in this model: `read_u8` /
`read_exact` hitting end of input (`UnexpectedEof`). -/
inductive IoErrorKind where
  | unexpectedEof
deriving DecidableEq, Repr

/-- `ParseRequestError` from `src/protocol/mod.rs`. -/
inductive ParseRequestError where
  | io (k : IoErrorKind)
  | unknownMethod (s : String)
  | unknownHttpVersion (s : String)
  | requestLine (s : String)
  | invalidHeader (s : String)
deriving DecidableEq, Repr

/-- `Method` from `src/protocol/mod.rs`. -/
inductive Method where
  | GET | HEAD | POST | PUT | DELETE | PATCH | OPTIONS | TRACE
deriving DecidableEq, Repr

/-- `impl FromStr for Method`: exact, case-sensitive match against the
closed vocabulary, otherwise `UnknownMethod` carrying the raw token. -/
def Method.fromStr (s : String) : Except ParseRequestError Method :=
  if s = "GET" then .ok .GET
  else if s = "HEAD" then .ok .HEAD
  else if s = "POST" then .ok .POST
  else if s = "PUT" then .ok .PUT
  else if s = "DELETE" then .ok .DELETE
  else if s = "PATCH" then .ok .PATCH
  else if s = "OPTIONS" then .ok .OPTIONS
  else if s = "TRACE" then .ok .TRACE
  else .error (.unknownMethod s)

/-- `Method::as_str`. -/
def Method.asStr : Method → String
  | .GET => "GET"
  | .HEAD => "HEAD"
  | .POST => "POST"
  | .PUT => "PUT"
  | .DELETE => "DELETE"
  | .PATCH => "PATCH"
  | .OPTIONS => "OPTIONS"
  | .TRACE => "TRACE"

/-- `HttpVersion` from `src/protocol/mod.rs`. -/
inductive HttpVersion where
  | http0_9 | http1_0 | http1_1
deriving DecidableEq, Repr

/-- `impl FromStr for HttpVersion`. -/
def HttpVersion.fromStr (s : String) : Except ParseRequestError HttpVersion :=
  if s = "HTTP/0.9" then .ok .http0_9
  else if s = "HTTP/1.0" then .ok .http1_0
  else if s = "HTTP/1.1" then .ok .http1_1
  else .error (.unknownHttpVersion s)

/-- `HttpVersion::as_str`. -/
def HttpVersion.asStr : HttpVersion → String
  | .http0_9 => "HTTP/0.9"
  | .http1_0 => "HTTP/1.0"
  | .http1_1 => "HTTP/1.1"

/-! ### String primitives used by the Rust code

`split(' ')`, `split(": ")`, `trim`, `eq_ignore_ascii_case` are modelled
directly on the character lists underlying `String`. -/

/-- Rust `str::split(' ')`: segments between single space characters
(adjacent separators yield empty segments; the empty string yields one
empty segment). -/
def splitSp : List Char → List (List Char)
  | [] => [[]]
  | c :: rest =>
    if c = ' ' then [] :: splitSp rest
    else
      match splitSp rest with
      | s :: ss => (c :: s) :: ss
      | [] => [[c]]

/-- Rust `str::split(": ")`: segments between non-overlapping occurrences
of the two-character separator colon-space, scanning left to right. -/
def splitColonSpace : List Char → List (List Char)
  | [] => [[]]
  | ':' :: ' ' :: rest => [] :: splitColonSpace rest
  | c :: rest =>
    match splitColonSpace rest with
    | s :: ss => (c :: s) :: ss
    | [] => [[c]]

/-- Rust `str::trim`: drop leading and trailing whitespace characters. -/
def trimChars (l : List Char) : List Char :=
  ((l.dropWhile Char.isWhitespace).reverse.dropWhile Char.isWhitespace).reverse

/-- Rust `str::trim` on `String`. -/
def trimStr (s : String) : String := ⟨trimChars s.data⟩

/-- ASCII lowercasing of one character (`u8::to_ascii_lowercase`). -/
def asciiLowerChar (c : Char) : Char :=
  if 'A' ≤ c ∧ c ≤ 'Z' then Char.ofNat (c.toNat + 32) else c

/-- Rust `str::eq_ignore_ascii_case`. -/
def eqIgnoreAsciiCase (a b : String) : Bool :=
  a.data.map asciiLowerChar == b.data.map asciiLowerChar

/-! ### Header and Headers (`src/protocol/mod.rs`) -/

/-- `Header` from `src/protocol/mod.rs`: one field/value pair. -/
structure Header where
  field : String
  value : String
deriving DecidableEq, Repr

/-- `Header::new`: stores both strings verbatim. -/
def Header.new (field value : String) : Header := ⟨field, value⟩

/-- `impl FromStr for Header`: `s.split(": ")`; the first segment (always
present) becomes the field verbatim, the second segment — if the separator
occurs — is trimmed and becomes the value; otherwise `InvalidHeader(s)`. -/
def Header.fromStr (s : String) : Except ParseRequestError Header :=
  match splitColonSpace s.data with
  | f :: v :: _ => .ok ⟨⟨f⟩, ⟨trimChars v⟩⟩
  | _ => .error (.invalidHeader s)

/-- `Headers` from `src/protocol/mod.rs`: a newtype over a vector of
headers, in insertion order. -/
structure Headers where
  toList : List Header
deriving DecidableEq, Repr

/-- `Headers::empty`. -/
def Headers.empty : Headers := ⟨[]⟩

/-- `Headers::get`: linear scan, first field matching case-insensitively;
returns its value. -/
def Headers.get (hs : Headers) (f : String) : Option String :=
  (hs.toList.find? fun h => eqIgnoreAsciiCase h.field f).map Header.value

/-- Modelled from the spec: `Headers::set` is called by `RawResponse::new`
(`src/protocol/response.rs` line 30) but its definition is not among the
provided sources. Spec section 4.2: "if a header with that field name already
exists (case-insensitive), its value is overwritten in place; otherwise a
new entry is appended at the end." -/
def Headers.setList (f v : String) : List Header → List Header
  | [] => [⟨f, v⟩]
  | h :: t =>
    if eqIgnoreAsciiCase h.field f then ⟨h.field, v⟩ :: t
    else h :: Headers.setList f v t

/-- Modelled from the spec: wrapper of `Headers.setList` on the `Headers`
newtype (see its doc comment). -/
def Headers.set (hs : Headers) (f v : String) : Headers :=
  ⟨Headers.setList f v hs.toList⟩

/-! ### UTF-8 (model of `String::from_utf8_lossy`) -/

/-- The Unicode replacement character U+FFFD. -/
def replacementChar : Char := Char.ofNat 0xFFFD

/-- Is `b` a UTF-8 continuation byte (`0x80..=0xBF`)? -/
def isCont (b : Nat) : Bool := 0x80 ≤ b ∧ b ≤ 0xBF

/-- Valid first continuation byte after a three-byte lead `b0`
(excludes overlong forms and surrogates, as Rust does). -/
def cont3Ok (b0 b1 : Nat) : Bool :=
  if b0 = 0xE0 then 0xA0 ≤ b1 ∧ b1 ≤ 0xBF
  else if b0 = 0xED then 0x80 ≤ b1 ∧ b1 ≤ 0x9F
  else isCont b1

/-- Valid first continuation byte after a four-byte lead `b0`. -/
def cont4Ok (b0 b1 : Nat) : Bool :=
  if b0 = 0xF0 then 0x90 ≤ b1 ∧ b1 ≤ 0xBF
  else if b0 = 0xF4 then 0x80 ≤ b1 ∧ b1 ≤ 0x8F
  else isCont b1

/-- Model of `String::from_utf8_lossy` (as a list of characters):
decodes well-formed UTF-8 sequences and replaces ill-formed subsequences
with U+FFFD. ASCII bytes decode to themselves, which is all the
repository's tests and this development's witnesses exercise. -/
def utf8DecodeLossy : List Nat → List Char
  | [] => []
  | b0 :: t0 =>
    if b0 < 0x80 then
      Char.ofNat b0 :: utf8DecodeLossy t0
    else if b0 < 0xC2 then
      replacementChar :: utf8DecodeLossy t0
    else if b0 < 0xE0 then
      match t0 with
      | [] => [replacementChar]
      | b1 :: t1 =>
        if isCont b1 then
          Char.ofNat ((b0 - 0xC0) * 0x40 + (b1 - 0x80)) :: utf8DecodeLossy t1
        else replacementChar :: utf8DecodeLossy (b1 :: t1)
    else if b0 < 0xF0 then
      match t0 with
      | [] => [replacementChar]
      | b1 :: t1 =>
        if cont3Ok b0 b1 then
          match t1 with
          | [] => [replacementChar]
          | b2 :: t2 =>
            if isCont b2 then
              Char.ofNat ((b0 - 0xE0) * 0x1000 + (b1 - 0x80) * 0x40 + (b2 - 0x80)) ::
                utf8DecodeLossy t2
            else replacementChar :: utf8DecodeLossy (b2 :: t2)
        else replacementChar :: utf8DecodeLossy (b1 :: t1)
    else if b0 < 0xF5 then
      match t0 with
      | [] => [replacementChar]
      | b1 :: t1 =>
        if cont4Ok b0 b1 then
          match t1 with
          | [] => [replacementChar]
          | b2 :: t2 =>
            if isCont b2 then
              match t2 with
              | [] => [replacementChar]
              | b3 :: t3 =>
                if isCont b3 then
                  Char.ofNat ((b0 - 0xF0) * 0x40000 + (b1 - 0x80) * 0x1000 +
                      (b2 - 0x80) * 0x40 + (b3 - 0x80)) :: utf8DecodeLossy t3
                else replacementChar :: utf8DecodeLossy (b3 :: t3)
            else replacementChar :: utf8DecodeLossy (b2 :: t2)
        else replacementChar :: utf8DecodeLossy (b1 :: t1)
    else
      replacementChar :: utf8DecodeLossy t0

/-- UTF-8 encoding of one character (what Rust's `write!` emits per char). -/
def utf8EncodeChar (c : Char) : List Nat :=
  let n := c.toNat
  if n < 0x80 then [n]
  else if n < 0x800 then [0xC0 + n / 0x40, 0x80 + n % 0x40]
  else if n < 0x10000 then
    [0xE0 + n / 0x1000, 0x80 + (n / 0x40) % 0x40, 0x80 + n % 0x40]
  else
    [0xF0 + n / 0x40000, 0x80 + (n / 0x1000) % 0x40, 0x80 + (n / 0x40) % 0x40,
      0x80 + n % 0x40]

/-- The UTF-8 bytes of a string (what Rust's `write!` emits). -/
def strBytes (s : String) : List Nat := (s.data.map utf8EncodeChar).flatten

/-! ### Line reading (`src/protocol/request.rs`, `read_next_line`) -/

/-- Loop body of `read_next_line`: byte-at-a-time scan with accumulated
line buffer and a "previous byte was CR" flag; on `LF` with the flag set,
the trailing `CR` already pushed is popped (`Vec::pop` = `dropLast`) and
the line is returned with the unread remainder of the input. End of input
before a terminator is an I/O error (`read_u8` fails). -/
def readNextLineAux : List Nat → List Nat → Bool → Except IoErrorKind (List Nat × List Nat)
  | [], _, _ => .error .unexpectedEof
  | b :: rest, line, prevCr =>
    if b = 10 ∧ prevCr then .ok (line.dropLast, rest)
    else readNextLineAux rest (line ++ [b]) (b = 13)

/-- `read_next_line`: reads until `CRLF`, stripping the terminator. -/
def read_next_line (input : List Nat) : Except IoErrorKind (List Nat × List Nat) :=
  readNextLineAux input [] false

/-- Does the byte list contain the two-byte subsequence `CR LF`? -/
def hasCRLF : List Nat → Bool
  | 13 :: 10 :: _ => true
  | _ :: rest => hasCRLF rest
  | [] => false

/-- Specification-side description of line reading (spec sections 4.3 and 6):
the bytes strictly before the first occurrence of `CR LF` together with the
bytes strictly after it, or `none` when no `CR LF` occurs. Stated from the
spec's words, to be compared with the source-derived `read_next_line`. -/
def splitAtFirstCRLF : List Nat → Option (List Nat × List Nat)
  | [] => none
  | b :: rest =>
    if b = 13 ∧ rest.head? = some 10 then some ([], rest.tail)
    else (splitAtFirstCRLF rest).map fun p => (b :: p.1, p.2)

/-! ### Request line and request decoding (`src/protocol/request.rs`) -/

/-- `RequestLine` from `src/protocol/request.rs`. -/
structure RequestLine where
  method : Method
  uri : String
  version : HttpVersion
deriving DecidableEq, Repr

/-- `impl FromStr for RequestLine`: split on single spaces; the first
token must parse as a `Method`, the second (verbatim) becomes the uri,
the third must parse as an `HttpVersion`; a missing token or a failed
enum parse yields `RequestLine(s)` with the original line. -/
def RequestLine.fromStr (s : String) : Except ParseRequestError RequestLine :=
  let parts := splitSp s.data
  match (parts[0]?).bind (fun w => (Method.fromStr ⟨w⟩).toOption),
      (parts[1]?).map (fun w => (⟨w⟩ : String)),
      (parts[2]?).bind (fun w => (HttpVersion.fromStr ⟨w⟩).toOption) with
  | some m, some u, some v => .ok ⟨m, u, v⟩
  | _, _, _ => .error (.requestLine s)

/-- `RawRequest` from `src/protocol/request.rs`. -/
structure RawRequest where
  request_line : RequestLine
  headers : Headers
  body : Option (List Nat)
deriving DecidableEq, Repr

/-- Rust `str::parse::<usize>()` (as used on the `Content-Length` value):
an optional leading `+`, then one or more ASCII digits, value below
2^64 (64-bit `usize`); anything else is a parse error (`none`). -/
def parseUsize (s : String) : Option Nat :=
  let l := match s.data with
    | '+' :: t => t
    | t => t
  if l ≠ [] ∧ l.all Char.isDigit then
    let n := l.foldl (fun acc c => acc * 10 + (c.toNat - 48)) 0
    if n < 2 ^ 64 then some n else none
  else none

/-- The header loop of `read_http_request`: read CRLF-terminated lines
until an empty one, parsing each as a `Header` and appending it. The
`fuel` argument only bounds the recursion for the embedding; the zero
branch is unreachable at the fuel supplied by `readHeadersLoop`, since
each iteration consumes at least two input bytes. -/
def readHeadersLoopF : Nat → List Nat → Headers → Except ParseRequestError (Headers × List Nat)
  | 0, _, _ => .error (.io .unexpectedEof)
  | fuel + 1, input, hs =>
    match read_next_line input with
    | .error e => .error (.io e)
    | .ok (line, rest) =>
      if line = [] then .ok (hs, rest)
      else
        match Header.fromStr ⟨utf8DecodeLossy line⟩ with
        | .error e => .error e
        | .ok h => readHeadersLoopF fuel rest ⟨hs.toList ++ [h]⟩

/-- The header loop of `read_http_request` (see `readHeadersLoopF`). -/
def readHeadersLoop (input : List Nat) (hs : Headers) :
    Except ParseRequestError (Headers × List Nat) :=
  readHeadersLoopF (input.length + 1) input hs

/-- `read_http_request`: request line, then headers until the empty line,
then — if `Content-Length` is present and parses as a `usize` — exactly
that many body bytes (`read_exact`; too few available is an I/O error),
otherwise no body. Returns the request and the unconsumed remainder. -/
def read_http_request (input : List Nat) :
    Except ParseRequestError (RawRequest × List Nat) :=
  match read_next_line input with
  | .error e => .error (.io e)
  | .ok (line, rest) =>
    match RequestLine.fromStr ⟨utf8DecodeLossy line⟩ with
    | .error e => .error e
    | .ok rl =>
      match readHeadersLoop rest Headers.empty with
      | .error e => .error e
      | .ok (headers, rest2) =>
        match (headers.get "Content-Length").bind parseUsize with
        | some n =>
          if n ≤ rest2.length then
            .ok (⟨rl, headers, some (rest2.take n)⟩, rest2.drop n)
          else .error (.io .unexpectedEof)
        | none => .ok (⟨rl, headers, none⟩, rest2)

/-! ### Response side (`src/protocol/mod.rs`, `src/protocol/response.rs`) -/

/-- `CRLF` constant from `src/protocol/mod.rs`. -/
def CRLF : String := "\r\n"

/-- `StatusCode` from `src/protocol/mod.rs`: a newtype over `u16`
(modelled as `Nat`; the numeric value is only formatted, never
arithmetically combined, so the 16-bit bound is immaterial here). -/
structure StatusCode where
  val : Nat
deriving DecidableEq, Repr

/-- `StatusCode::default_reason_phrase`: total over the numeric space,
the documented phrase for every enumerated code, `"Unknown"` otherwise. -/
def StatusCode.defaultReasonPhrase (c : StatusCode) : String :=
  match c.val with
  | 100 => "Continue"
  | 101 => "Switching Protocols"
  | 102 => "Processing"
  | 103 => "Early Hints"
  | 200 => "OK"
  | 201 => "Created"
  | 202 => "Accepted"
  | 203 => "Non-Authoritative Information"
  | 204 => "No Content"
  | 205 => "Reset Content"
  | 206 => "Partial Content"
  | 207 => "Multi-Status"
  | 208 => "Already Reported"
  | 226 => "IM Used"
  | 300 => "Multiple Choices"
  | 301 => "Moved Permanently"
  | 302 => "Found"
  | 303 => "See Other"
  | 304 => "Not Modified"
  | 305 => "Use Proxy"
  | 307 => "Temporary Redirect"
  | 308 => "Permanent Redirect"
  | 400 => "Bad Request"
  | 401 => "Unauthorized"
  | 402 => "Payment Required"
  | 403 => "Forbidden"
  | 404 => "Not Found"
  | 405 => "Method Not Allowed"
  | 406 => "Not Acceptable"
  | 407 => "Proxy Authentication Required"
  | 408 => "Request Timeout"
  | 409 => "Conflict"
  | 410 => "Gone"
  | 411 => "Length Required"
  | 412 => "Precondition Failed"
  | 413 => "Payload Too Large"
  | 414 => "URI Too Long"
  | 415 => "Unsupported Media Type"
  | 416 => "Range Not Satisfiable"
  | 417 => "Expectation Failed"
  | 421 => "Misdirected Request"
  | 422 => "Unprocessable Entity"
  | 423 => "Locked"
  | 424 => "Failed Dependency"
  | 426 => "Upgrade Required"
  | 428 => "Precondition Required"
  | 429 => "Too Many Requests"
  | 431 => "Request Header Fields Too Large"
  | 451 => "Unavailable For Legal Reasons"
  | 500 => "Internal Server Error"
  | 501 => "Not Implemented"
  | 502 => "Bad Gateway"
  | 503 => "Service Unavailable"
  | 504 => "Gateway Timeout"
  | 505 => "HTTP Version Not Supported"
  | 506 => "Variant Also Negotiates"
  | 507 => "Insufficient Storage"
  | 508 => "Loop Detected"
  | 510 => "Not Extended"
  | 511 => "Network Authentication Required"
  | _ => "Unknown"

/-- `StatusLine` from `src/protocol/response.rs`. -/
structure StatusLine where
  version : HttpVersion
  status : StatusCode
deriving DecidableEq, Repr

/-- `StatusLine::to_http_message`: the status line
`<version> <numeric-code> <reason-phrase>` followed by `CRLF`. -/
def StatusLine.to_http_message (sl : StatusLine) : String :=
  sl.version.asStr ++ " " ++ toString sl.status.val ++ " " ++
    sl.status.defaultReasonPhrase ++ CRLF

/-- Modelled from the spec: `Headers::to_http_message` is called by
`RawResponse::into_vec` (`src/protocol/response.rs` line 42) but its
definition is not among the provided sources. Spec section 4.4: "each
header formatted as `<field>: <value>CRLF` in collection order"
(consistent with the repository's own test expecting
`Header::to_http_message` = `"hello: world\r\n"`). -/
def Headers.to_http_message (hs : Headers) : String :=
  hs.toList.foldr (fun h acc => h.field ++ ": " ++ h.value ++ CRLF ++ acc) ""

/-- `RawResponse` from `src/protocol/response.rs`. -/
structure RawResponse where
  status_line : StatusLine
  headers : Headers
  body : Option (List Nat)
deriving DecidableEq, Repr

/-- `RawResponse::new`: if a body is present, upsert `Content-Length`
with the body's exact byte length; otherwise the headers pass through
untouched. -/
def RawResponse.new (status_line : StatusLine) (headers : Headers)
    (body : Option (List Nat)) : RawResponse :=
  match body with
  | some b => ⟨status_line, headers.set "Content-Length" (toString b.length), some b⟩
  | none => ⟨status_line, headers, none⟩

/-- `RawResponse::into_vec`: the status line, the header block, a blank
`CRLF` line and then the raw body bytes (nothing if absent), written into
one contiguous buffer. -/
def RawResponse.into_vec (r : RawResponse) : List Nat :=
  strBytes r.status_line.to_http_message ++ strBytes r.headers.to_http_message ++
    strBytes CRLF ++ (match r.body with | some b => b | none => [])

/-! ## Theorems -/

/-- `strBytes` maps string concatenation to byte concatenation. -/
theorem strBytes_append (a b : String) :
    strBytes (a ++ b) = strBytes a ++ strBytes b := by
  simp [strBytes, String.data_append]

/-- The bytes of the `CRLF` constant. -/
theorem strBytes_crlf : strBytes CRLF = [13, 10] := by decide

/-- One-step characterization of `hasCRLF`. -/
theorem hasCRLF_cons (b : Nat) (l : List Nat) :
    hasCRLF (b :: l) =
      ((decide (b = 13) && decide (l.head? = some 10)) || hasCRLF l) := by
  cases l with
  | nil => simp [hasCRLF]
  | cons c t =>
    by_cases hb : b = 13 <;> by_cases hc : c = 10 <;>
      simp [hasCRLF, hb, hc]

/-- Unfolding equation of `splitAtFirstCRLF` at a cons cell. -/
theorem splitAtFirstCRLF_cons (b : Nat) (t : List Nat) :
    splitAtFirstCRLF (b :: t) =
      if b = 13 ∧ (t.head? = some 10) then some ([], t.tail)
      else (splitAtFirstCRLF t).map fun p => (b :: p.1, p.2) := rfl

/-- Completeness of `splitAtFirstCRLF`: a CRLF-free prefix followed by
`CR LF` splits exactly there. -/
theorem splitAtFirstCRLF_complete (l rest : List Nat) (hl : hasCRLF l = false) :
    splitAtFirstCRLF (l ++ 13 :: 10 :: rest) = some (l, rest) := by
  induction l with
  | nil => simp [splitAtFirstCRLF]
  | cons b t ih =>
    rw [hasCRLF_cons] at hl
    simp only [Bool.or_eq_false_iff, Bool.and_eq_false_iff] at hl
    obtain ⟨hbt, ht⟩ := hl
    have hcond : ¬(b = 13 ∧ ((t ++ 13 :: 10 :: rest).head? = some 10)) := by
      cases t with
      | nil => simp
      | cons c t' =>
        rintro ⟨rfl, hh⟩
        simp only [List.cons_append, List.head?_cons, Option.some.injEq] at hh
        rcases hbt with hbt | hbt <;> simp [hh] at hbt
    rw [List.cons_append, splitAtFirstCRLF_cons, if_neg hcond, ih ht,
      Option.map_some']

/-- Soundness of `splitAtFirstCRLF`: a successful split decomposes the
input around a `CR LF`, and the prefix is CRLF-free (so the split is at
the first occurrence). -/
theorem splitAtFirstCRLF_sound :
    ∀ (input l rest : List Nat), splitAtFirstCRLF input = some (l, rest) →
      input = l ++ 13 :: 10 :: rest ∧ hasCRLF l = false := by
  intro input
  induction input with
  | nil => intro l rest h; simp [splitAtFirstCRLF] at h
  | cons b t ih =>
    intro l rest h
    rw [splitAtFirstCRLF_cons] at h
    by_cases hcond : b = 13 ∧ (t.head? = some 10)
    · rw [if_pos hcond] at h
      obtain ⟨rfl, hh⟩ := hcond
      cases t with
      | nil => simp at hh
      | cons c t' =>
        simp only [List.head?_cons, Option.some.injEq] at hh
        subst hh
        simp only [List.tail_cons, Option.some.injEq, Prod.mk.injEq] at h
        obtain ⟨rfl, rfl⟩ := h
        exact ⟨rfl, rfl⟩
    · rw [if_neg hcond, Option.map_eq_some'] at h
      obtain ⟨⟨l', rest'⟩, hsp, heq⟩ := h
      obtain ⟨hin, hfree⟩ := ih l' rest' hsp
      simp only [Prod.mk.injEq] at heq
      obtain ⟨rfl, rfl⟩ := heq
      refine ⟨by simp [hin], ?_⟩
      rw [hasCRLF_cons, hfree, Bool.or_false, Bool.and_eq_false_iff]
      cases l' with
      | nil => simp
      | cons c t' =>
        have hhd : t.head? = some c := by rw [hin]; rfl
        by_cases hb : b = 13
        · subst hb
          right
          simp only [decide_eq_false_iff_not, ne_eq, List.head?_cons,
            Option.some.injEq]
          intro hc
          exact hcond ⟨rfl, by rw [hhd, hc]⟩
        · left; simp [hb]

/-- The loop of `read_next_line`, related to the spec-side split: starting
from an accumulated `line` and a CR flag, the result either closes a CRLF
straddling the accumulator boundary or extends `line` by the bytes before
the first CRLF of the remaining input. -/
theorem readNextLineAux_eq (input : List Nat) :
    ∀ (line : List Nat) (prevCr : Bool),
      readNextLineAux input line prevCr =
        if prevCr ∧ input.head? = some 10 then .ok (line.dropLast, input.tail)
        else
          match splitAtFirstCRLF input with
          | some (l, r) => .ok (line ++ l, r)
          | none => .error .unexpectedEof := by
  induction input with
  | nil => intro line prevCr; simp [readNextLineAux, splitAtFirstCRLF]
  | cons b rest ih =>
    intro line prevCr
    by_cases hstop : b = 10 ∧ prevCr = true
    · obtain ⟨rfl, rfl⟩ := hstop
      simp [readNextLineAux]
    · have hstop' : ¬(prevCr = true ∧ ((b :: rest).head? = some 10)) := by
        rintro ⟨hp, hh⟩
        simp only [List.head?_cons, Option.some.injEq] at hh
        exact hstop ⟨hh, hp⟩
      rw [show readNextLineAux (b :: rest) line prevCr =
            readNextLineAux rest (line ++ [b]) (decide (b = 13)) by
          simp only [readNextLineAux]
          rw [if_neg]
          rintro ⟨h10, hp⟩
          exact hstop ⟨h10, by simp [hp]⟩]
      rw [ih (line ++ [b]) (decide (b = 13))]
      by_cases hnext : b = 13 ∧ (rest.head? = some 10)
      · obtain ⟨rfl, hh⟩ := hnext
        cases rest with
        | nil => simp at hh
        | cons c t =>
          simp only [List.head?_cons, Option.some.injEq] at hh
          subst hh
          rw [if_pos (by simp), if_neg (by simp_all)]
          simp [splitAtFirstCRLF, List.dropLast_concat]
      · rw [if_neg (by
            rintro ⟨hb, hh⟩
            simp only [decide_eq_true_eq] at hb
            exact hnext ⟨hb, hh⟩)]
        rw [if_neg (by simpa using hstop')]
        simp only [splitAtFirstCRLF, if_neg hnext]
        cases hsp : splitAtFirstCRLF rest with
        | none => simp
        | some p => cases p with
          | mk l r => simp [List.append_assoc]

/-- `read_next_line` is exactly "split at the first CRLF", failing with
the I/O error when no CRLF occurs before end of input. -/
theorem read_next_line_eq (input : List Nat) :
    read_next_line input =
      match splitAtFirstCRLF input with
      | some (l, r) => .ok (l, r)
      | none => .error .unexpectedEof := by
  rw [read_next_line, readNextLineAux_eq]
  rw [if_neg (by simp)]
  cases splitAtFirstCRLF input with
  | none => rfl
  | some p => cases p with
    | mk l r => simp

/-- C6. `read_next_line` returns exactly the bytes preceding the first
occurrence of the two-byte sequence `CR LF`, with the terminator stripped
and the remainder untouched; a prefix free of `CR LF` (which may contain
bare `LF`s and lone `CR`s) is returned whole, and conversely every
successful read decomposes the input as that CRLF-free prefix, the
terminator, and the remainder. -/
theorem c6_read_next_line_crlf :
    (∀ (l rest : List Nat), hasCRLF l = false →
      read_next_line (l ++ 13 :: 10 :: rest) = .ok (l, rest)) ∧
    (∀ (input l rest : List Nat), read_next_line input = .ok (l, rest) →
      input = l ++ 13 :: 10 :: rest ∧ hasCRLF l = false) := by
  constructor
  · intro l rest hl
    rw [read_next_line_eq, splitAtFirstCRLF_complete l rest hl]
  · intro input l rest h
    rw [read_next_line_eq] at h
    cases hsp : splitAtFirstCRLF input with
    | none => rw [hsp] at h; exact absurd h (by simp)
    | some p =>
      cases p with
      | mk l' r' =>
        rw [hsp] at h
        simp only [Except.ok.injEq, Prod.mk.injEq] at h
        obtain ⟨rfl, rfl⟩ := h
        exact splitAtFirstCRLF_sound input l' r' hsp

/-- Witness for C6: a line containing a lone `CR` (13) and a bare `LF`
(10) is returned whole, terminated only by the true `CR LF` pair. -/
theorem c6_read_next_line_crlf_witness :
    hasCRLF [13, 65, 10, 66] = false ∧
      read_next_line ([13, 65, 10, 66] ++ 13 :: 10 :: [67]) =
        .ok ([13, 65, 10, 66], [67]) :=
  ⟨by decide, c6_read_next_line_crlf.1 [13, 65, 10, 66] [67] (by decide)⟩

/-- `List.find?` returns the first element satisfying the predicate:
full characterization by a split of the list. -/
theorem find?_eq_some_split {α : Type} (p : α → Bool) :
    ∀ (l : List α) (a : α), l.find? p = some a ↔
      ∃ pre post, l = pre ++ a :: post ∧ p a = true ∧
        ∀ x ∈ pre, p x = false := by
  intro l a
  induction l with
  | nil => simp
  | cons x t ih =>
    rw [List.find?_cons]
    by_cases hx : p x
    · simp only [hx]
      constructor
      · rintro h
        simp only [Option.some.injEq] at h
        exact ⟨[], t, by simp [h], by rw [← h]; exact hx, by simp⟩
      · rintro ⟨pre, post, hdec, hpa, hpre⟩
        cases pre with
        | nil =>
          simp only [List.nil_append, List.cons.injEq] at hdec
          rw [hdec.1]
        | cons y pre' =>
          simp only [List.cons_append, List.cons.injEq] at hdec
          have := hpre y (by simp)
          rw [← hdec.1] at this
          rw [hx] at this
          exact absurd this (by simp)
    · simp only [Bool.not_eq_true] at hx
      simp only [hx]
      rw [ih]
      constructor
      · rintro ⟨pre, post, hdec, hpa, hpre⟩
        refine ⟨x :: pre, post, by simp [hdec], hpa, ?_⟩
        intro y hy
        rcases List.mem_cons.mp hy with rfl | hy
        · exact hx
        · exact hpre y hy
      · rintro ⟨pre, post, hdec, hpa, hpre⟩
        cases pre with
        | nil =>
          simp only [List.nil_append, List.cons.injEq] at hdec
          rw [hdec.1] at hx
          rw [hpa] at hx
          exact absurd hx (by simp)
        | cons y pre' =>
          simp only [List.cons_append, List.cons.injEq] at hdec
          exact ⟨pre', post, hdec.2, hpa, fun z hz => hpre z (by simp [hz])⟩

/-- C8. `Headers::get` is a linear scan returning the value of the first
entry whose field matches the query case-insensitively: a returned value
belongs to a matching entry all of whose predecessors fail to match, and
`none` is returned exactly when no entry of the collection matches. -/
theorem c8_get_first_match (hs : Headers) (f : String) :
    (∀ v, hs.get f = some v ↔
      ∃ pre h post, hs.toList = pre ++ h :: post ∧
        eqIgnoreAsciiCase h.field f = true ∧ h.value = v ∧
        ∀ h' ∈ pre, eqIgnoreAsciiCase h'.field f = false) ∧
    (hs.get f = none ↔ ∀ h ∈ hs.toList, eqIgnoreAsciiCase h.field f = false) := by
  constructor
  · intro v
    rw [Headers.get, Option.map_eq_some']
    constructor
    · rintro ⟨h, hfind, hval⟩
      obtain ⟨pre, post, hdec, hmatch, hpre⟩ :=
        (find?_eq_some_split _ hs.toList h).mp hfind
      exact ⟨pre, h, post, hdec, hmatch, hval, hpre⟩
    · rintro ⟨pre, h, post, hdec, hmatch, hval, hpre⟩
      exact ⟨h, (find?_eq_some_split _ hs.toList h).mpr
        ⟨pre, post, hdec, hmatch, hpre⟩, hval⟩
  · rw [Headers.get, Option.map_eq_none', List.find?_eq_none]
    constructor
    · intro hnone h hmem
      have := hnone h hmem
      simpa using this
    · intro hall h hmem
      simp [hall h hmem]

/-- Witness for C8: in a two-entry collection with duplicate
case-insensitive fields, the first entry's value is returned. -/
theorem c8_get_first_match_witness :
    (Headers.mk [⟨"Content-Type", "a"⟩, ⟨"content-type", "b"⟩]).get
        "CONTENT-TYPE" = some "a" :=
  ((c8_get_first_match ⟨[⟨"Content-Type", "a"⟩, ⟨"content-type", "b"⟩]⟩
      "CONTENT-TYPE").1 "a").mpr
    ⟨[], ⟨"Content-Type", "a"⟩, [⟨"content-type", "b"⟩], rfl, by decide, rfl,
      by simp⟩

/-- `Headers.setList` when no entry matches: append at the end. -/
theorem setList_all_miss (f v : String) :
    ∀ l : List Header, (∀ h ∈ l, eqIgnoreAsciiCase h.field f = false) →
      Headers.setList f v l = l ++ [⟨f, v⟩] := by
  intro l
  induction l with
  | nil => intro; rfl
  | cons h t ih =>
    intro hmiss
    rw [Headers.setList, if_neg (by simp [hmiss h (by simp)]),
      ih fun h' hh' => hmiss h' (by simp [hh'])]
    rfl

/-- `Headers.setList` at the first matching entry: the value is
overwritten in place, everything else untouched. -/
theorem setList_first_hit (f v : String) :
    ∀ (pre : List Header) (h : Header) (post : List Header),
      (∀ h' ∈ pre, eqIgnoreAsciiCase h'.field f = false) →
      eqIgnoreAsciiCase h.field f = true →
      Headers.setList f v (pre ++ h :: post) = pre ++ ⟨h.field, v⟩ :: post := by
  intro pre
  induction pre with
  | nil =>
    intro h post _ hhit
    simp only [List.nil_append]
    rw [Headers.setList, if_pos hhit]
  | cons x pre' ih =>
    intro h post hmiss hhit
    simp only [List.cons_append]
    rw [Headers.setList, if_neg (by simp [hmiss x (by simp)]),
      ih h post (fun h' hh' => hmiss h' (by simp [hh'])) hhit]

/-- After `Headers.setList f v`, looking up `f` finds `v` (the predicate
being reflexive on `f`). -/
theorem get_setList (f v : String) (hrefl : eqIgnoreAsciiCase f f = true) :
    ∀ l : List Header, Headers.get ⟨Headers.setList f v l⟩ f = some v := by
  intro l
  induction l with
  | nil => simp [Headers.get, Headers.setList, List.find?, hrefl]
  | cons h t ih =>
    by_cases hh : eqIgnoreAsciiCase h.field f
    · rw [Headers.get]
      show ((Headers.setList f v (h :: t)).find? _).map _ = some v
      rw [Headers.setList, if_pos hh]
      simp [List.find?_cons, hh]
    · rw [Headers.get]
      show ((Headers.setList f v (h :: t)).find? _).map _ = some v
      rw [Headers.setList, if_neg hh]
      rw [List.find?_cons]
      simp only [Bool.not_eq_true] at hh
      simp only [hh]
      exact ih

/-- C7. `RawResponse::new` with a present body guarantees a
`Content-Length` header whose value is the body's exact byte length:
looking it up afterwards yields that length; if no entry matched
case-insensitively the new entry is appended at the end, and if one did,
the first such entry's value is overwritten in place (same position, same
stored field casing, all other entries untouched) — discarding any
caller-supplied value. -/
theorem c7_content_length_upsert (sl : StatusLine) (hs : Headers) (b : List Nat) :
    ((RawResponse.new sl hs (some b)).headers.get "Content-Length" =
      some (toString b.length)) ∧
    ((∀ h ∈ hs.toList, eqIgnoreAsciiCase h.field "Content-Length" = false) →
      (RawResponse.new sl hs (some b)).headers.toList =
        hs.toList ++ [⟨"Content-Length", toString b.length⟩]) ∧
    (∀ pre h post, hs.toList = pre ++ h :: post →
      (∀ h' ∈ pre, eqIgnoreAsciiCase h'.field "Content-Length" = false) →
      eqIgnoreAsciiCase h.field "Content-Length" = true →
      (RawResponse.new sl hs (some b)).headers.toList =
        pre ++ ⟨h.field, toString b.length⟩ :: post) := by
  have hbase : (RawResponse.new sl hs (some b)).headers =
      ⟨Headers.setList "Content-Length" (toString b.length) hs.toList⟩ := rfl
  refine ⟨?_, ?_, ?_⟩
  · rw [hbase]
    exact get_setList _ _ (by decide) hs.toList
  · intro hmiss
    rw [hbase]
    exact setList_all_miss _ _ hs.toList hmiss
  · intro pre h post hdec hmiss hhit
    rw [hbase]
    show Headers.setList "Content-Length" (toString b.length) hs.toList = _
    rw [hdec]
    exact setList_first_hit _ _ pre h post hmiss hhit

/-- Witness for C7: a caller-supplied stale `content-length` (in different
casing) is overwritten in place with the body's true byte length. -/
theorem c7_content_length_upsert_witness :
    eqIgnoreAsciiCase (Header.mk "content-length" "99").field "Content-Length" = true ∧
    (RawResponse.new ⟨.http1_1, ⟨200⟩⟩ ⟨[⟨"content-length", "99"⟩]⟩
        (some [104, 105])).headers.toList =
      [] ++ ⟨(Header.mk "content-length" "99").field,
        toString ([104, 105] : List Nat).length⟩ :: [] :=
  ⟨by decide,
    (c7_content_length_upsert ⟨.http1_1, ⟨200⟩⟩ ⟨[⟨"content-length", "99"⟩]⟩
        [104, 105]).2.2 [] ⟨"content-length", "99"⟩ [] rfl (by simp) (by decide)⟩

/-- The head of `dropWhile p` never satisfies `p`. -/
theorem head?_dropWhile {α : Type} (p : α → Bool) :
    ∀ (l : List α) (c : α), (l.dropWhile p).head? = some c → p c = false := by
  intro l
  induction l with
  | nil => simp
  | cons x t ih =>
    intro c h
    rw [List.dropWhile_cons] at h
    by_cases hx : p x
    · rw [if_pos hx] at h
      exact ih c h
    · rw [if_neg hx] at h
      simp only [List.head?_cons, Option.some.injEq] at h
      rw [← h]
      simpa using hx

/-- The last element of a nonempty suffix is the last element of the
whole list. -/
theorem getLast?_of_suffix {α : Type} {s t : List α} (hsuf : s <:+ t) {c : α}
    (h : s.getLast? = some c) : t.getLast? = some c := by
  obtain ⟨u, rfl⟩ := hsuf
  rw [List.getLast?_append, h]
  rfl

/-- `trimChars` leaves no trailing whitespace. -/
theorem trimChars_getLast? (l : List Char) (c : Char)
    (h : (trimChars l).getLast? = some c) : c.isWhitespace = false := by
  rw [trimChars, List.getLast?_reverse] at h
  exact head?_dropWhile _ _ c h

/-- `trimChars` leaves no leading whitespace. -/
theorem trimChars_head? (l : List Char) (c : Char)
    (h : (trimChars l).head? = some c) : c.isWhitespace = false := by
  rw [trimChars, List.head?_reverse] at h
  have h2 := getLast?_of_suffix
    (List.dropWhile_suffix (l := (l.dropWhile Char.isWhitespace).reverse)
      Char.isWhitespace) h
  rw [List.getLast?_reverse] at h2
  exact head?_dropWhile _ _ c h2

/-- Counterexample to C5 as stated: `Header::new` stores its arguments
verbatim, so explicit construction yields a header with an empty field and
an untrimmed value, and even parsing can yield an empty field. -/
theorem c5_counterexample :
    (Header.new "" " x ").field = "" ∧
    (Header.new "" " x ").value = " x " ∧
    (" x " : String).data.head? = some ' ' ∧
    (' ' : Char).isWhitespace = true ∧
    Header.fromStr ": x" = .ok ⟨"", "x"⟩ := by decide

/-- C5 amended. Header values produced by parsing carry no leading or
trailing whitespace in their value; `Header::new` stores field and value
verbatim, enforcing neither field non-emptiness nor value trimming (and
parsing does not guarantee a non-empty field either). -/
theorem c5_header_invariant :
    (∀ (s : String) (h : Header), Header.fromStr s = .ok h →
      (∀ c, h.value.data.head? = some c → c.isWhitespace = false) ∧
      (∀ c, h.value.data.getLast? = some c → c.isWhitespace = false)) ∧
    (∀ f v, Header.new f v = ⟨f, v⟩) := by
  constructor
  · intro s h hok
    cases hsp : splitColonSpace s.data with
    | nil => rw [Header.fromStr, hsp] at hok; exact absurd hok (by simp)
    | cons f rest =>
      cases rest with
      | nil => rw [Header.fromStr, hsp] at hok; exact absurd hok (by simp)
      | cons v rest' =>
        rw [Header.fromStr, hsp] at hok
        simp only [Except.ok.injEq] at hok
        rw [← hok]
        exact ⟨fun c => trimChars_head? v c, fun c => trimChars_getLast? v c⟩
  · intro f v
    rfl

/-- Witness for C5 (amended): a parsed header's value has a
non-whitespace first and last character. -/
theorem c5_header_invariant_witness :
    Header.fromStr "A:  b " = .ok ⟨"A", "b"⟩ ∧
    ("b" : String).data.head? = some 'b' ∧
    Char.isWhitespace 'b' = false :=
  ⟨by decide, by decide,
    (c5_header_invariant.1 "A:  b " ⟨"A", "b"⟩ (by decide)).1 'b' (by decide)⟩

/-- `splitColonSpace` always yields at least one segment. -/
theorem splitColonSpace_ne_nil (l : List Char) : splitColonSpace l ≠ [] := by
  rw [splitColonSpace.eq_def]
  split
  · simp
  · simp
  · split <;> simp

/-- Counterexample to C4 as stated: on a line with two separators the
value is the segment between the first and second `": "`, not the entire
remainder after the first one. -/
theorem c4_counterexample :
    Header.fromStr "A: b: c" = .ok ⟨"A", "b"⟩ ∧
    Header.fromStr "A: b: c" ≠ .ok ⟨"A", "b: c"⟩ := by decide

/-- C4 amended. `Header::from_str` splits the line on every occurrence of
the two-character separator `": "`: the segment before the first separator
becomes the field verbatim (not trimmed) and the segment between the first
and second separators (to end of line when the separator occurs once),
trimmed of surrounding whitespace, becomes the value; parsing fails, with
`InvalidHeader` carrying the original line, exactly when the separator
does not occur. -/
theorem c4_header_parse (s : String) :
    (∀ h, Header.fromStr s = .ok h ↔
      ∃ f v rest, splitColonSpace s.data = f :: v :: rest ∧
        h = ⟨⟨f⟩, ⟨trimChars v⟩⟩) ∧
    (∀ e, Header.fromStr s = .error e ↔
      (splitColonSpace s.data).length = 1 ∧ e = .invalidHeader s) := by
  cases hsp : splitColonSpace s.data with
  | nil => exact absurd hsp (splitColonSpace_ne_nil s.data)
  | cons f rest =>
    cases rest with
    | nil =>
      constructor
      · intro h
        rw [Header.fromStr, hsp]
        simp [hsp]
      · intro e
        rw [Header.fromStr, hsp]
        simp [hsp, eq_comm]
    | cons v rest' =>
      constructor
      · intro h
        rw [Header.fromStr, hsp]
        constructor
        · intro hok
          simp only [Except.ok.injEq] at hok
          exact ⟨f, v, rest', rfl, hok.symm⟩
        · rintro ⟨f', v', rest'', hdec, rfl⟩
          simp only [List.cons.injEq] at hdec
          rw [hdec.1, hdec.2.1]
      · intro e
        rw [Header.fromStr, hsp]
        simp [hsp]

/-- Witness for C4 (amended): one separator, untrimmed field, trimmed
value. -/
theorem c4_header_parse_witness :
    Header.fromStr " A : b c " = .ok ⟨" A ", "b c"⟩ :=
  ((c4_header_parse " A : b c ").1 ⟨" A ", "b c"⟩).mpr
    ⟨[' ', 'A', ' '], ['b', ' ', 'c', ' '], [], by decide, by decide⟩

/-- Counterexample to C3 as stated: a line splitting into four tokens is
accepted (the fourth token is silently ignored), while the claim requires
acceptance only for exactly three tokens. -/
theorem c3_counterexample :
    (splitSp ("GET / HTTP/1.1 junk" : String).data).length = 4 ∧
    RequestLine.fromStr "GET / HTTP/1.1 junk" = .ok ⟨.GET, "/", .http1_1⟩ := by
  decide

/-- C3 amended. `RequestLine::from_str` splits the line on single ASCII
spaces and succeeds exactly when there are at least three tokens with the
first parsing as a `Method` and the third as an `HttpVersion` (the second
becomes the uri verbatim; tokens beyond the third are ignored); every
failure carries the original unmodified line in
`ParseRequestError::RequestLine`. -/
theorem c3_request_line_parse (s : String) :
    (∀ rl, RequestLine.fromStr s = .ok rl ↔
      ∃ p0 p1 p2 rest, splitSp s.data = p0 :: p1 :: p2 :: rest ∧
        Method.fromStr ⟨p0⟩ = .ok rl.method ∧ rl.uri = ⟨p1⟩ ∧
        HttpVersion.fromStr ⟨p2⟩ = .ok rl.version) ∧
    (∀ e, RequestLine.fromStr s = .error e → e = .requestLine s) := by
  constructor
  · intro rl
    rw [RequestLine.fromStr]
    cases hsp : splitSp s.data with
    | nil => simp [hsp]
    | cons p0 rest0 =>
      cases rest0 with
      | nil =>
        simp only [hsp, List.getElem?_cons_zero, List.getElem?_cons_succ,
          List.getElem?_nil, Option.some_bind, Option.map_none', Option.none_bind]
        constructor
        · intro h
          cases hm : (Method.fromStr ⟨p0⟩).toOption <;> rw [hm] at h <;>
            exact absurd h (by simp)
        · rintro ⟨q0, q1, q2, qrest, hdec, _⟩
          simp at hdec
      | cons p1 rest1 =>
        cases rest1 with
        | nil =>
          simp only [hsp, List.getElem?_cons_zero, List.getElem?_cons_succ,
            List.getElem?_nil, Option.some_bind, Option.map_some', Option.none_bind]
          constructor
          · intro h
            cases hm : (Method.fromStr ⟨p0⟩).toOption <;> rw [hm] at h <;>
              exact absurd h (by simp)
          · rintro ⟨q0, q1, q2, qrest, hdec, _⟩
            simp at hdec
        | cons p2 rest2 =>
          simp only [hsp, List.getElem?_cons_zero, List.getElem?_cons_succ,
            Option.some_bind, Option.map_some']
          constructor
          · intro h
            cases hm : (Method.fromStr ⟨p0⟩) with
            | error em => rw [hm] at h; exact absurd h (by simp [Except.toOption])
            | ok m =>
              cases hv : (HttpVersion.fromStr ⟨p2⟩) with
              | error ev =>
                rw [hm, hv] at h
                exact absurd h (by simp [Except.toOption])
              | ok v =>
                rw [hm, hv] at h
                simp only [Except.toOption, Option.some_bind,
                  Except.ok.injEq] at h
                exact ⟨p0, p1, p2, rest2, rfl, by rw [hm, ← h],
                  by rw [← h], by rw [hv, ← h]⟩
          · rintro ⟨q0, q1, q2, qrest, hdec, hm, hu, hv⟩
            simp only [List.cons.injEq] at hdec
            obtain ⟨h1, h2, h3, -⟩ := hdec
            subst h1
            subst h2
            subst h3
            rw [hm, hv]
            simp only [Except.toOption, Option.some_bind]
            cases rl
            simp only at hu
            simp [hu]
  · intro e h
    rw [RequestLine.fromStr] at h
    rcases hm : (splitSp s.data)[0]?.bind
        (fun w => (Method.fromStr ⟨w⟩).toOption) with _ | m <;>
      rcases hu : (splitSp s.data)[1]?.map
        (fun w => (⟨w⟩ : String)) with _ | u <;>
      rcases hv : (splitSp s.data)[2]?.bind
        (fun w => (HttpVersion.fromStr ⟨w⟩).toOption) with _ | v <;>
      rw [hm, hu, hv] at h <;> simp only [Except.error.injEq] at h <;>
      first
        | exact h.symm
        | exact absurd h (by simp)

/-- Witness for C3 (amended): a well-formed three-token request line is
accepted with the expected components. -/
theorem c3_request_line_parse_witness :
    RequestLine.fromStr "GET /some HTTP/1.1" =
      .ok ⟨.GET, "/some", .http1_1⟩ :=
  ((c3_request_line_parse "GET /some HTTP/1.1").1 ⟨.GET, "/some", .http1_1⟩).mpr
    ⟨['G', 'E', 'T'], ['/', 's', 'o', 'm', 'e'],
      ['H', 'T', 'T', 'P', '/', '1', '.', '1'], [],
      by decide, by decide, by decide, by decide⟩

/-- C9. On the closed vocabularies, parsing is the exact inverse of
`as_str` for both `Method` and `HttpVersion`, and parsing any string
outside the respective vocabulary fails with the error carrying that
string. -/
theorem c9_enum_roundtrip :
    (∀ m : Method, Method.fromStr m.asStr = .ok m) ∧
    (∀ v : HttpVersion, HttpVersion.fromStr v.asStr = .ok v) ∧
    (∀ s : String, (∀ m : Method, s ≠ m.asStr) →
      Method.fromStr s = .error (.unknownMethod s)) ∧
    (∀ s : String, (∀ v : HttpVersion, s ≠ v.asStr) →
      HttpVersion.fromStr s = .error (.unknownHttpVersion s)) := by
  refine ⟨fun m => by cases m <;> rfl, fun v => by cases v <;> rfl, ?_, ?_⟩
  · intro s h
    rw [Method.fromStr, if_neg (show s ≠ "GET" from h .GET),
      if_neg (show s ≠ "HEAD" from h .HEAD),
      if_neg (show s ≠ "POST" from h .POST),
      if_neg (show s ≠ "PUT" from h .PUT),
      if_neg (show s ≠ "DELETE" from h .DELETE),
      if_neg (show s ≠ "PATCH" from h .PATCH),
      if_neg (show s ≠ "OPTIONS" from h .OPTIONS),
      if_neg (show s ≠ "TRACE" from h .TRACE)]
  · intro s h
    rw [HttpVersion.fromStr, if_neg (show s ≠ "HTTP/0.9" from h .http0_9),
      if_neg (show s ≠ "HTTP/1.0" from h .http1_0),
      if_neg (show s ≠ "HTTP/1.1" from h .http1_1)]

/-- Witness for C9: a token outside the method vocabulary and a token
outside the version vocabulary are both rejected with the raw token. -/
theorem c9_enum_roundtrip_witness :
    Method.fromStr "BREW" = .error (.unknownMethod "BREW") ∧
    HttpVersion.fromStr "HTTP/2" = .error (.unknownHttpVersion "HTTP/2") :=
  ⟨c9_enum_roundtrip.2.2.1 "BREW" (fun m => by cases m <;> decide),
    c9_enum_roundtrip.2.2.2 "HTTP/2" (fun v => by cases v <;> decide)⟩

/-- The bytes of the serialized header block: per-header lines in
collection order, each terminated by `CR LF`. -/
theorem to_http_message_bytes (l : List Header) :
    strBytes (Headers.to_http_message ⟨l⟩) =
      (l.map fun h => strBytes (h.field ++ ": " ++ h.value) ++ [13, 10]).flatten := by
  induction l with
  | nil => rfl
  | cons h t ih =>
    show strBytes (h.field ++ ": " ++ h.value ++ CRLF ++
      Headers.to_http_message ⟨t⟩) = _
    simp [strBytes_append, strBytes_crlf, ih, List.append_assoc]

/-- C2. `RawResponse::into_vec` produces exactly, in order: the status
line `<version> <numeric-code> <reason-phrase>` and `CR LF`; each header
of the collection in order as `<field>: <value>` and `CR LF`; one blank
`CR LF`; then the body bytes verbatim when present (nothing otherwise) —
and no other bytes. -/
theorem c2_into_vec_layout (r : RawResponse) :
    r.into_vec =
      strBytes (r.status_line.version.asStr ++ " " ++
          toString r.status_line.status.val ++ " " ++
          r.status_line.status.defaultReasonPhrase) ++ [13, 10] ++
        (r.headers.toList.map fun h =>
          strBytes (h.field ++ ": " ++ h.value) ++ [13, 10]).flatten ++
        [13, 10] ++
        (match r.body with | some b => b | none => []) := by
  obtain ⟨sl, ⟨hl⟩, body⟩ := r
  show strBytes (StatusLine.to_http_message sl) ++
      strBytes (Headers.to_http_message ⟨hl⟩) ++ strBytes CRLF ++ _ = _
  rw [to_http_message_bytes, strBytes_crlf, StatusLine.to_http_message]
  simp [strBytes_append, strBytes_crlf, List.append_assoc]

/-- C10. With an absent body, `RawResponse::new` passes the
caller-supplied headers through unchanged (no `Content-Length` injected,
every entry retained at its position with its field and value), and
serialization emits exactly those headers followed by the blank line and
no body bytes. -/
theorem c10_no_body_passthrough (sl : StatusLine) (hs : Headers) :
    (RawResponse.new sl hs none).headers = hs ∧
    (RawResponse.new sl hs none).body = none ∧
    (RawResponse.new sl hs none).into_vec =
      strBytes sl.to_http_message ++ strBytes hs.to_http_message ++
        strBytes CRLF := by
  refine ⟨rfl, rfl, ?_⟩
  show strBytes sl.to_http_message ++ strBytes hs.to_http_message ++
    strBytes CRLF ++ [] = _
  simp

/-- C1. After the request line and header block of `read_http_request`
are consumed, the request carries a body of exactly `n` bytes (taken from
the source, which advances by `n`) precisely when the case-insensitive
`Content-Length` lookup yields a value parsing as the non-negative
integer `n`; when that lookup is absent or unparsable the body is `none`
and no body bytes are consumed; and when fewer than `n` bytes remain the
decode fails with an `Io` error instead of returning a shorter body. -/
theorem c1_body_content_length
    (input line rest1 : List Nat) (rl : RequestLine) (headers : Headers)
    (rest2 : List Nat)
    (h1 : read_next_line input = .ok (line, rest1))
    (h2 : RequestLine.fromStr ⟨utf8DecodeLossy line⟩ = .ok rl)
    (h3 : readHeadersLoop rest1 Headers.empty = .ok (headers, rest2)) :
    (∀ n, (headers.get "Content-Length").bind parseUsize = some n →
      (n ≤ rest2.length →
        read_http_request input =
          .ok (⟨rl, headers, some (rest2.take n)⟩, rest2.drop n) ∧
        (rest2.take n).length = n) ∧
      (rest2.length < n →
        read_http_request input = .error (.io .unexpectedEof))) ∧
    ((headers.get "Content-Length").bind parseUsize = none →
      read_http_request input = .ok (⟨rl, headers, none⟩, rest2)) ∧
    (∀ req rest', read_http_request input = .ok (req, rest') →
      req.request_line = rl ∧ req.headers = headers ∧
      ((req.body = none ∧
          (headers.get "Content-Length").bind parseUsize = none ∧
          rest' = rest2) ∨
        (∃ n b, (headers.get "Content-Length").bind parseUsize = some n ∧
          req.body = some b ∧ b.length = n ∧ rest' = rest2.drop n))) := by
  have hmain : read_http_request input =
      (match (headers.get "Content-Length").bind parseUsize with
        | some n =>
          if n ≤ rest2.length then
            .ok (⟨rl, headers, some (rest2.take n)⟩, rest2.drop n)
          else .error (.io .unexpectedEof)
        | none => .ok (⟨rl, headers, none⟩, rest2)) := by
    simp only [read_http_request, h1, h2, h3]
  have hsome : ∀ n, (headers.get "Content-Length").bind parseUsize = some n →
      read_http_request input =
        if n ≤ rest2.length then
          .ok (⟨rl, headers, some (rest2.take n)⟩, rest2.drop n)
        else .error (.io .unexpectedEof) := by
    intro n hcl
    rw [hmain, hcl]
  have hnone : (headers.get "Content-Length").bind parseUsize = none →
      read_http_request input = .ok (⟨rl, headers, none⟩, rest2) := by
    intro hcl
    rw [hmain, hcl]
  refine ⟨?_, hnone, ?_⟩
  · intro n hcl
    refine ⟨fun hle => ⟨by rw [hsome n hcl, if_pos hle],
        by rw [List.length_take]; exact min_eq_left hle⟩,
      fun hlt => by rw [hsome n hcl, if_neg (by omega)]⟩
  · intro req rest' hok
    cases hcl : (headers.get "Content-Length").bind parseUsize with
    | none =>
      rw [hnone hcl] at hok
      simp only [Except.ok.injEq, Prod.mk.injEq] at hok
      obtain ⟨h4, h5⟩ := hok
      subst h5
      subst h4
      exact ⟨rfl, rfl, Or.inl ⟨rfl, rfl, rfl⟩⟩
    | some n =>
      rw [hsome n hcl] at hok
      by_cases hle : n ≤ rest2.length
      · rw [if_pos hle] at hok
        simp only [Except.ok.injEq, Prod.mk.injEq] at hok
        obtain ⟨h4, h5⟩ := hok
        subst h5
        subst h4
        exact ⟨rfl, rfl, Or.inr ⟨n, rest2.take n, rfl, rfl,
          by rw [List.length_take]; exact min_eq_left hle, rfl⟩⟩
      · rw [if_neg hle] at hok
        exact absurd hok (by simp)

/-- Witness for C1: a request with `Content-Length: 3` followed by five
available bytes yields a body of exactly the first three bytes, with the
remaining two left unconsumed. -/
theorem c1_body_content_length_witness :
    read_next_line (strBytes "POST / HTTP/1.1\r\nContent-Length: 3\r\n\r\nabcde") =
      .ok (strBytes "POST / HTTP/1.1", strBytes "Content-Length: 3\r\n\r\nabcde") ∧
    ((Headers.mk [⟨"Content-Length", "3"⟩]).get "Content-Length").bind parseUsize =
      some 3 ∧
    read_http_request (strBytes "POST / HTTP/1.1\r\nContent-Length: 3\r\n\r\nabcde") =
      .ok (⟨⟨.POST, "/", .http1_1⟩, ⟨[⟨"Content-Length", "3"⟩]⟩,
        some ((strBytes "abcde").take 3)⟩, (strBytes "abcde").drop 3) ∧
    ((strBytes "abcde").take 3).length = 3 :=
  ⟨by decide, by decide,
    ((c1_body_content_length
        (strBytes "POST / HTTP/1.1\r\nContent-Length: 3\r\n\r\nabcde")
        (strBytes "POST / HTTP/1.1")
        (strBytes "Content-Length: 3\r\n\r\nabcde")
        ⟨.POST, "/", .http1_1⟩ ⟨[⟨"Content-Length", "3"⟩]⟩
        (strBytes "abcde")
        (by decide) (by decide) (by decide)).1 3 (by decide)).1 (by decide)⟩

end Toot

example : Toot.Method.fromStr "GET" = .ok .GET := by decide
example : "ab".data = ['a', 'b'] := by decide
example : Toot.Header.fromStr "Content-Type: application/json" =
    .ok ⟨"Content-Type", "application/json"⟩ := by decide
example : Toot.Header.fromStr "A: b: c" = .ok ⟨"A", "b"⟩ := by decide
example : Toot.Header.fromStr "malformed" =
    .error (.invalidHeader "malformed") := by decide
example : Toot.Header.fromStr ": x" = .ok ⟨"", "x"⟩ := by decide
example :
    (Toot.Headers.mk [⟨"Content-Type", "a"⟩]).get "content-type" = some "a" := by
  decide
example : Toot.RequestLine.fromStr "GET /some HTTP/1.1" =
    .ok ⟨.GET, "/some", .http1_1⟩ := by decide
example : Toot.StatusLine.to_http_message ⟨.http1_1, ⟨200⟩⟩ = "HTTP/1.1 200 OK\r\n" := by
  decide
example :
    Toot.read_http_request
      (Toot.strBytes "GET /foo/bar HTTP/1.1\r\nContent-Type: application/json\r\n\r\n") =
    .ok (⟨⟨.GET, "/foo/bar", .http1_1⟩,
      ⟨[⟨"Content-Type", "application/json"⟩]⟩, none⟩, []) := by decide
example :
    Toot.read_http_request
      (Toot.strBytes "POST / HTTP/1.1\r\nContent-Length: 5\r\n\r\nhelloX") =
    .ok (⟨⟨.POST, "/", .http1_1⟩,
      ⟨[⟨"Content-Length", "5"⟩]⟩, some (Toot.strBytes "hello")⟩,
      Toot.strBytes "X") := by decide
